import Mathlib

/-!
# Verification of the consensus validation engine

A shallow embedding, in Lean 4, of the consensus validation engine of the
`consensus-proof` repository: the stack-based script interpreter
(`src/script.rs`), transaction and block state-transition checks
(`src/transaction.rs`, `src/block.rs`), proof-of-work target arithmetic
(`src/pow.rs`) and the economic model (`src/economic.rs`), together with
theorems settling the specification's claims about those functions.

Machine integers are modelled as `Nat`/`Int` with explicit `% 2^w`
truncation at the points where the Rust code truncates (`as u8`,
`as u32`, u64 word arithmetic inside `U256`).  Fallible Rust functions
returning `Result<T, ConsensusError>` are modelled as
`Except ConsensusError T`.  Byte strings are `List Nat` with each
element `< 256` by construction.
-/

namespace ConsensusProof

/-! ## Byte-level helpers -/

/-- Little-endian decomposition of `v` into `n` bytes (`v % 2^(8n)`). -/
def leBytes : Nat → Nat → List Nat
  | 0, _ => []
  | n + 1, v => (v % 256) :: leBytes n (v / 256)

/-- Value of a byte list read as a little-endian natural number. -/
def leNat : List Nat → Nat
  | [] => 0
  | b :: rest => b + 256 * leNat rest

/-- Value of a byte list read as a big-endian natural number. -/
def beNat (bs : List Nat) : Nat := leNat bs.reverse

/-! ## SHA-256 (FIPS 180-4)

The repository hashes with the external `sha2` crate; the crate computes
standard SHA-256, reproduced here concretely over byte lists.  All word
arithmetic is `Nat` with explicit reduction modulo `2^32`. -/

/-- 32-bit truncating addition. -/
def add32 (a b : Nat) : Nat := (a + b) % 4294967296

/-- 32-bit right rotation. -/
def rotr32 (x n : Nat) : Nat :=
  ((x >>> n) ||| (x <<< (32 - n))) % 4294967296

/-- 32-bit complement. -/
def not32 (x : Nat) : Nat := 4294967295 - x

/-- SHA-256 round constants. -/
def sha256K : List Nat :=
  [1116352408, 1899447441, 3049323471, 3921009573, 961987163,
   1508970993, 2453635748, 2870763221, 3624381080, 310598401,
   607225278, 1426881987, 1925078388, 2162078206, 2614888103,
   3248222580, 3835390401, 4022224774, 264347078, 604807628,
   770255983, 1249150122, 1555081692, 1996064986, 2554220882,
   2821834349, 2952996808, 3210313671, 3336571891, 3584528711,
   113926993, 338241895, 666307205, 773529912, 1294757372,
   1396182291, 1695183700, 1986661051, 2177026350, 2456956037,
   2730485921, 2820302411, 3259730800, 3345764771, 3516065817,
   3600352804, 4094571909, 275423344, 430227734, 506948616,
   659060556, 883997877, 958139571, 1322822218, 1537002063,
   1747873779, 1955562222, 2024104815, 2227730452, 2361852424,
   2428436474, 2756734187, 3204031479, 3329325298]

/-- SHA-256 initial hash state. -/
def sha256H0 : List Nat :=
  [1779033703, 3144134277, 1013904242, 2773480762,
   1359893119, 2600822924, 528734635, 1541459225]

/-- Group a byte list into big-endian 32-bit words. -/
def bytesToWords : List Nat → List Nat
  | b0 :: b1 :: b2 :: b3 :: rest =>
      (((b0 * 256 + b1) * 256 + b2) * 256 + b3) :: bytesToWords rest
  | _ => []

/-- SHA-256 message padding: append `0x80`, zero bytes, and the 64-bit
big-endian bit length, reaching a multiple of 64 bytes. -/
def sha256Pad (msg : List Nat) : List Nat :=
  let len := msg.length
  let padLen := (64 - (len + 9) % 64) % 64
  msg ++ [0x80] ++ List.replicate padLen 0 ++ (leBytes 8 (len * 8)).reverse

/-- SHA-256 small sigma 0. -/
def ssig0 (x : Nat) : Nat := (rotr32 x 7) ^^^ (rotr32 x 18) ^^^ (x >>> 3)

/-- SHA-256 small sigma 1. -/
def ssig1 (x : Nat) : Nat := (rotr32 x 17) ^^^ (rotr32 x 19) ^^^ (x >>> 10)

/-- SHA-256 big Sigma 0. -/
def bsig0 (x : Nat) : Nat := (rotr32 x 2) ^^^ (rotr32 x 13) ^^^ (rotr32 x 22)

/-- SHA-256 big Sigma 1. -/
def bsig1 (x : Nat) : Nat := (rotr32 x 6) ^^^ (rotr32 x 11) ^^^ (rotr32 x 25)

/-- Extend the 16 message words to the full 64-entry schedule. -/
def sha256Extend : Nat → List Nat → List Nat
  | 0, w => w
  | n + 1, w =>
      let t := w.length
      let nw := add32 (add32 (ssig1 (w.getD (t - 2) 0)) (w.getD (t - 7) 0))
                      (add32 (ssig0 (w.getD (t - 15) 0)) (w.getD (t - 16) 0))
      sha256Extend n (w ++ [nw])

/-- One SHA-256 round: update the working state with constant `k` and
schedule word `w`. -/
def sha256Round (st : List Nat) (k w : Nat) : List Nat :=
  match st with
  | [a, b, c, d, e, f, g, h] =>
      let ch := (e &&& f) ^^^ ((not32 e) &&& g)
      let maj := (a &&& b) ^^^ (a &&& c) ^^^ (b &&& c)
      let t1 := add32 (add32 (add32 h (bsig1 e)) (add32 ch k)) w
      let t2 := add32 (bsig0 a) maj
      [add32 t1 t2, a, b, c, add32 d t1, e, f, g]
  | other => other

/-- Compress one 64-byte block into the hash state. -/
def sha256Compress (st : List Nat) (block : List Nat) : List Nat :=
  let w := sha256Extend 48 (bytesToWords block)
  let fin := (sha256K.zip w).foldl (fun s p => sha256Round s p.1 p.2) st
  (st.zip fin).map (fun p => add32 p.1 p.2)

/-- Fold the compression function over `n` consecutive 64-byte blocks. -/
def sha256Blocks : Nat → List Nat → List Nat → List Nat
  | 0, st, _ => st
  | n + 1, st, bytes =>
      sha256Blocks n (sha256Compress st (bytes.take 64)) (bytes.drop 64)

/-- SHA-256 of a byte list, as a 32-byte list. -/
def sha256 (msg : List Nat) : List Nat :=
  let padded := sha256Pad msg
  let st := sha256Blocks (padded.length / 64) sha256H0 padded
  st.foldr (fun wd acc => (leBytes 4 wd).reverse ++ acc) []

/-- Double SHA-256. -/
def sha256d (msg : List Nat) : List Nat := sha256 (sha256 msg)

/-! ## Constants (`src/constants.rs`) -/

/-- Maximum money supply: 21,000,000 BTC in satoshis. -/
def MAX_MONEY : Int := 21000000 * 100000000

/-- Maximum transaction size: 1MB. -/
def MAX_TX_SIZE : Nat := 1000000

/-- Maximum number of inputs per transaction. -/
def MAX_INPUTS : Nat := 1000

/-- Maximum number of outputs per transaction. -/
def MAX_OUTPUTS : Nat := 1000

/-- Maximum stack size during script execution. -/
def MAX_STACK_SIZE : Nat := 1000

/-- Maximum number of operations in script. -/
def MAX_SCRIPT_OPS : Nat := 201

/-- Halving interval: 210,000 blocks. -/
def HALVING_INTERVAL : Nat := 210000

/-- Initial block subsidy: 50 BTC in satoshis. -/
def INITIAL_SUBSIDY : Int := 50 * 100000000

/-- Maximum target (minimum difficulty). -/
def MAX_TARGET : Nat := 0x1d00ffff

/-! ## Core types (`src/types.rs`)

`Hash` is a 32-byte list, `ByteString` a byte list, `Natural` (u64) is
`Nat`, `Integer` (i64) is `Int`. -/

/-- OutPoint: a transaction id together with an output index. -/
structure OutPoint where
  hash : List Nat
  index : Nat
deriving DecidableEq, Repr

/-- Transaction input: previous output reference, unlocking script,
sequence number. -/
structure TransactionInput where
  prevout : OutPoint
  script_sig : List Nat
  sequence : Nat
deriving DecidableEq, Repr

/-- Transaction output: amount and locking script. -/
structure TransactionOutput where
  value : Int
  script_pubkey : List Nat
deriving DecidableEq, Repr

/-- Transaction: version, inputs, outputs, lock time. -/
structure Transaction where
  version : Nat
  inputs : List TransactionInput
  outputs : List TransactionOutput
  lock_time : Nat
deriving DecidableEq, Repr

/-- Block header. -/
structure BlockHeader where
  version : Int
  prev_block_hash : List Nat
  merkle_root : List Nat
  timestamp : Nat
  bits : Nat
  nonce : Nat
deriving DecidableEq, Repr

/-- Block: header plus ordered transaction list. -/
structure Block where
  header : BlockHeader
  transactions : List Transaction
deriving DecidableEq, Repr

/-- Unspent transaction output: value, locking script, creation height. -/
structure UTXO where
  value : Int
  script_pubkey : List Nat
  height : Nat
deriving DecidableEq, Repr

/-- The UTXO set (`HashMap<OutPoint, UTXO>` in the source) as an
association list with at most one entry per key. -/
def UtxoSet : Type := List (OutPoint × UTXO)

instance : DecidableEq UtxoSet := by
  unfold UtxoSet
  infer_instance

/-- Validation result: `Valid` or `Invalid(reason)`. -/
inductive ValidationResult where
  | Valid : ValidationResult
  | Invalid : String → ValidationResult
deriving DecidableEq, Repr

/-- Error type (`src/error.rs`). -/
inductive ConsensusError where
  | TransactionValidation : String → ConsensusError
  | BlockValidation : String → ConsensusError
  | ScriptExecution : String → ConsensusError
  | UtxoNotFound : String → ConsensusError
  | InvalidSignature : String → ConsensusError
  | InvalidProofOfWork : String → ConsensusError
  | EconomicValidation : String → ConsensusError
  | Serialization : String → ConsensusError
  | ConsensusRuleViolation : String → ConsensusError
deriving DecidableEq, Repr

instance {ε α : Type} [DecidableEq ε] [DecidableEq α] : DecidableEq (Except ε α) :=
  fun x y =>
    match x, y with
    | .ok a, .ok b =>
      if h : a = b then isTrue (by rw [h]) else isFalse (fun hh => h (Except.ok.inj hh))
    | .error e, .error f =>
      if h : e = f then isTrue (by rw [h]) else isFalse (fun hh => h (Except.error.inj hh))
    | .ok _, .error _ => isFalse (fun hh => Except.noConfusion hh)
    | .error _, .ok _ => isFalse (fun hh => Except.noConfusion hh)

/-- `HashMap::get`: look up an outpoint. -/
def us_get : UtxoSet → OutPoint → Option UTXO
  | [], _ => none
  | (k, v) :: rest, o => if k = o then some v else us_get rest o

/-- `HashMap::remove`: drop the entry for an outpoint. -/
def us_remove (us : UtxoSet) (o : OutPoint) : UtxoSet :=
  us.filter (fun p => p.1 != o)

/-- `HashMap::insert`: add or replace the entry for an outpoint. -/
def us_insert (us : UtxoSet) (o : OutPoint) (u : UTXO) : UtxoSet :=
  (o, u) :: us_remove us o

/-! ## Script engine (`src/script.rs`)

The stack is a `List (List Nat)` with the head as the top (the end of the
Rust `Vec`).  The engine calls two functions that live outside the
repository, in external crates: RIPEMD-160 (the `ripemd` crate, used
only by `OP_HASH160`) and secp256k1 ECDSA signature verification against
the fixed all-zero digest (the `secp256k1` crate, wrapped by the
source's `verify_signature`).  Both are taken as parameters
(`ripemd160`, `verify_signature`); every theorem about the engine holds
for all behaviours of these external primitives. -/

/-- Truthiness of a stack item: non-empty with non-zero first byte. -/
def item_truthy : List Nat → Bool
  | [] => false
  | b :: _ => b != 0

/-- The final stack condition of `eval_script` / `verify_script`:
exactly one element and that element truthy. -/
def final_stack_check (stack : List (List Nat)) : Bool :=
  stack.length == 1 && item_truthy (stack.headD [])

/-- The arms of the source's `execute_opcode` match.  Every arm of that
match returns `Ok`, so the match body is this total function and
`execute_opcode` wraps it in `Ok`. -/
def execute_opcode_core (ripemd160 : List Nat → List Nat)
    (verify_signature : List Nat → List Nat → Nat → Bool)
    (opcode : Nat) (stack : List (List Nat)) (flags : Nat) :
    Bool × List (List Nat) :=
  -- OP_0 - push empty array
  if opcode = 0x00 then (true, [] :: stack)
  -- OP_1 to OP_16 - push numbers 1-16
  else if 0x51 ≤ opcode ∧ opcode ≤ 0x60 then (true, [opcode - 0x50] :: stack)
  -- OP_DUP - duplicate top stack item
  else if opcode = 0x76 then
    match stack with
    | item :: rest => (true, item :: item :: rest)
    | [] => (false, [])
  -- OP_HASH160 - RIPEMD160(SHA256(x))
  else if opcode = 0xa9 then
    match stack with
    | item :: rest => (true, ripemd160 (sha256 item) :: rest)
    | [] => (false, [])
  -- OP_HASH256 - SHA256(SHA256(x))
  else if opcode = 0xaa then
    match stack with
    | item :: rest => (true, sha256 (sha256 item) :: rest)
    | [] => (false, [])
  -- OP_EQUAL - check if top two stack items are equal
  else if opcode = 0x87 then
    match stack with
    | a :: b :: rest => (true, (if a = b then [1] else [0]) :: rest)
    | _ => (false, stack)
  -- OP_EQUALVERIFY - verify top two stack items are equal
  else if opcode = 0x88 then
    match stack with
    | a :: b :: rest => (a == b, rest)
    | _ => (false, stack)
  -- OP_CHECKSIG - verify ECDSA signature
  else if opcode = 0xac then
    match stack with
    | pk :: sg :: rest =>
        (true, (if verify_signature pk sg flags then [1] else [0]) :: rest)
    | _ => (false, stack)
  -- OP_CHECKSIGVERIFY - verify ECDSA signature and fail if invalid
  else if opcode = 0xad then
    match stack with
    | pk :: sg :: rest => (verify_signature pk sg flags, rest)
    | _ => (false, stack)
  -- OP_RETURN - always fail
  else if opcode = 0x6a then (false, stack)
  -- OP_VERIFY - check if top stack item is non-zero
  else if opcode = 0x69 then
    match stack with
    | item :: rest => (item_truthy item, rest)
    | [] => (false, [])
  -- OP_IFDUP - duplicate top stack item if it's non-zero
  else if opcode = 0x73 then
    match stack with
    | item :: rest =>
        (true, if item_truthy item then item :: item :: rest else item :: rest)
    | [] => (false, [])
  -- OP_DEPTH - push stack size (`stack.len() as u8`)
  else if opcode = 0x74 then (true, [stack.length % 256] :: stack)
  -- OP_DROP - remove top stack item
  else if opcode = 0x75 then
    match stack with
    | _ :: rest => (true, rest)
    | [] => (false, [])
  -- OP_NIP - remove second-to-top stack item
  else if opcode = 0x77 then
    match stack with
    | a :: _ :: rest => (true, a :: rest)
    | _ => (false, stack)
  -- OP_OVER - copy second-to-top stack item to top
  else if opcode = 0x78 then
    match stack with
    | a :: b :: rest => (true, b :: a :: b :: rest)
    | _ => (false, stack)
  -- OP_PICK - copy nth stack item to top
  else if opcode = 0x79 then
    match stack with
    | nb :: rest =>
        if nb.isEmpty then (false, rest)
        else
          let n := nb.headD 0
          if n < rest.length then (true, rest.getD n [] :: rest)
          else (false, rest)
    | [] => (false, [])
  -- OP_ROLL - move nth stack item to top
  else if opcode = 0x7a then
    match stack with
    | nb :: rest =>
        if nb.isEmpty then (false, rest)
        else
          let n := nb.headD 0
          if n < rest.length then (true, rest.getD n [] :: rest.eraseIdx n)
          else (false, rest)
    | [] => (false, [])
  -- OP_ROT - rotate top 3 stack items
  else if opcode = 0x7b then
    match stack with
    | a :: b :: c :: rest => (true, c :: a :: b :: rest)
    | _ => (false, stack)
  -- OP_SWAP - swap top 2 stack items
  else if opcode = 0x7c then
    match stack with
    | a :: b :: rest => (true, b :: a :: rest)
    | _ => (false, stack)
  -- OP_TUCK - copy top stack item to before second-to-top
  else if opcode = 0x7d then
    match stack with
    | a :: b :: rest => (true, a :: b :: a :: rest)
    | _ => (false, stack)
  -- OP_2DROP - remove top 2 stack items
  else if opcode = 0x6d then
    match stack with
    | _ :: _ :: rest => (true, rest)
    | _ => (false, stack)
  -- OP_2DUP - duplicate top 2 stack items
  else if opcode = 0x6e then
    match stack with
    | a :: b :: rest => (true, a :: b :: a :: b :: rest)
    | _ => (false, stack)
  -- OP_3DUP - duplicate top 3 stack items
  else if opcode = 0x6f then
    match stack with
    | a :: b :: c :: rest => (true, a :: b :: c :: a :: b :: c :: rest)
    | _ => (false, stack)
  -- OP_2OVER - copy second pair of stack items to top
  else if opcode = 0x70 then
    match stack with
    | a :: b :: c :: d :: rest => (true, c :: d :: a :: b :: c :: d :: rest)
    | _ => (false, stack)
  -- OP_2ROT - rotate second pair of stack items to top
  else if opcode = 0x71 then
    match stack with
    | a :: b :: c :: d :: e :: f :: rest => (true, f :: e :: a :: b :: c :: d :: rest)
    | _ => (false, stack)
  -- OP_2SWAP - swap second pair of stack items
  else if opcode = 0x72 then
    match stack with
    | a :: b :: c :: d :: rest => (true, c :: d :: a :: b :: rest)
    | _ => (false, stack)
  -- OP_SIZE - push size of top stack item (`item.len() as u8`)
  else if opcode = 0x82 then
    match stack with
    | item :: rest => (true, [item.length % 256] :: item :: rest)
    | [] => (false, [])
  -- Unknown opcode
  else (false, stack)

/-- `execute_opcode`: execute a single opcode.  Every arm of the source
match returns `Ok`, hence the `Ok` of the total match body. -/
def execute_opcode (ripemd160 : List Nat → List Nat)
    (verify_signature : List Nat → List Nat → Nat → Bool)
    (opcode : Nat) (stack : List (List Nat)) (flags : Nat) :
    Except ConsensusError (Bool × List (List Nat)) :=
  .ok (execute_opcode_core ripemd160 verify_signature opcode stack flags)

/-- The `eval_script` loop over the remaining opcodes, carrying the
operation count.  Each iteration increments the count, checks the
operation limit, checks the stack size, then executes the opcode;
a `false` opcode result returns `Ok(false)` with the mutated stack. -/
def eval_steps (ripemd160 : List Nat → List Nat)
    (verify_signature : List Nat → List Nat → Nat → Bool) (flags : Nat) :
    List Nat → Nat → List (List Nat) →
    Except ConsensusError (Bool × List (List Nat))
  | [], _, stack => .ok (final_stack_check stack, stack)
  | op :: rest, op_count, stack =>
      if MAX_SCRIPT_OPS < op_count + 1 then
        .error (.ScriptExecution "Operation limit exceeded")
      else if MAX_STACK_SIZE < stack.length then
        .error (.ScriptExecution "Stack overflow")
      else
        match execute_opcode ripemd160 verify_signature op stack flags with
        | .error e => .error e
        | .ok (true, stack') => eval_steps ripemd160 verify_signature flags rest (op_count + 1) stack'
        | .ok (false, stack') => .ok (false, stack')

/-- `eval_script`: run a script on a stack, returning the final boolean
(exactly one truthy element) and the final stack. -/
def eval_script (ripemd160 : List Nat → List Nat)
    (verify_signature : List Nat → List Nat → Nat → Bool)
    (script : List Nat) (stack : List (List Nat)) (flags : Nat) :
    Except ConsensusError (Bool × List (List Nat)) :=
  eval_steps ripemd160 verify_signature flags script 0 stack

/-- `verify_script`: scriptSig on an empty stack, then scriptPubKey,
then the witness if present, short-circuiting to `Ok(false)` whenever a
phase evaluates false; final acceptance re-checks the last stack. -/
def verify_script (ripemd160 : List Nat → List Nat)
    (verify_signature : List Nat → List Nat → Nat → Bool)
    (script_sig script_pubkey : List Nat) (witness : Option (List Nat))
    (flags : Nat) : Except ConsensusError Bool :=
  match eval_script ripemd160 verify_signature script_sig [] flags with
  | .error e => .error e
  | .ok (false, _) => .ok false
  | .ok (true, stack1) =>
    match eval_script ripemd160 verify_signature script_pubkey stack1 flags with
    | .error e => .error e
    | .ok (false, _) => .ok false
    | .ok (true, stack2) =>
      match witness with
      | some w =>
        match eval_script ripemd160 verify_signature w stack2 flags with
        | .error e => .error e
        | .ok (false, _) => .ok false
        | .ok (true, stack3) => .ok (final_stack_check stack3)
      | none => .ok (final_stack_check stack2)

/-! ## Transaction validation (`src/transaction.rs`) -/

/-- Coinbase test: exactly one input whose prevout is the sentinel
(all-zero hash, index `0xffffffff`). -/
def is_coinbase (tx : Transaction) : Bool :=
  match tx.inputs with
  | [inp] => inp.prevout.hash == List.replicate 32 0 && inp.prevout.index == 0xffffffff
  | _ => false

/-- Simplified serialized-size computation
(`calculate_transaction_size`). -/
def calculate_transaction_size (tx : Transaction) : Nat :=
  4 + tx.inputs.length * 41 + tx.outputs.length * 9 + 4

/-- First out-of-range output, with the source's message
(the loop in step 2 of `check_transaction`). -/
def first_bad_output : List TransactionOutput → Nat → Option String
  | [], _ => none
  | o :: rest, i =>
      if o.value < 0 ∨ o.value > MAX_MONEY then
        some ("Invalid output value " ++ toString o.value ++ " at index " ++ toString i)
      else first_bad_output rest (i + 1)

/-- `check_transaction`: structural checks only. -/
def check_transaction (tx : Transaction) : Except ConsensusError ValidationResult :=
  if tx.inputs.isEmpty ∨ tx.outputs.isEmpty then
    .ok (.Invalid "Empty inputs or outputs")
  else
    match first_bad_output tx.outputs 0 with
    | some msg => .ok (.Invalid msg)
    | none =>
      if MAX_INPUTS < tx.inputs.length then
        .ok (.Invalid ("Too many inputs: " ++ toString tx.inputs.length))
      else if MAX_OUTPUTS < tx.outputs.length then
        .ok (.Invalid ("Too many outputs: " ++ toString tx.outputs.length))
      else if MAX_TX_SIZE < calculate_transaction_size tx then
        .ok (.Invalid ("Transaction too large: " ++ toString (calculate_transaction_size tx) ++ " bytes"))
      else .ok .Valid

/-- The input loop of `check_tx_inputs`: the total referenced value, or
the source's message for the first missing outpoint. -/
def sum_input_values (us : UtxoSet) : List TransactionInput → Nat → Sum String Int
  | [], _ => .inr 0
  | inp :: rest, i =>
    match us_get us inp.prevout with
    | some utxo =>
      match sum_input_values us rest (i + 1) with
      | .inr total => .inr (utxo.value + total)
      | .inl msg => .inl msg
    | none => .inl ("Input " ++ toString i ++ " not found in UTXO set")

/-- `check_tx_inputs`: coinbase short-circuits to `(Valid, 0)`;
otherwise sum referenced UTXO values (first missing outpoint is
`(Invalid, 0)`), require total input ≥ total output, and return the
fee. -/
def check_tx_inputs (tx : Transaction) (us : UtxoSet) (_height : Nat) :
    Except ConsensusError (ValidationResult × Int) :=
  if is_coinbase tx then .ok (.Valid, 0)
  else
    match sum_input_values us tx.inputs 0 with
    | .inl msg => .ok (.Invalid msg, 0)
    | .inr total_input_value =>
      let total_output_value : Int := (tx.outputs.map (fun o => o.value)).sum
      if total_input_value < total_output_value then
        .ok (.Invalid "Insufficient input value", 0)
      else .ok (.Valid, total_input_value - total_output_value)

/-! ## Economic model (`src/economic.rs`) -/

/-- `get_block_subsidy`: the initial subsidy arithmetically
right-shifted by the halving period, zero from the 64th halving on.
The source shifts the positive i64 `INITIAL_SUBSIDY`; for a positive
value the arithmetic shift is the natural-number shift. -/
def get_block_subsidy (height : Nat) : Int :=
  let halving_period := height / HALVING_INTERVAL
  if 64 ≤ halving_period then 0
  else ((INITIAL_SUBSIDY.toNat >>> halving_period : Nat) : Int)

/-- `total_supply`: the loop `for h in 0..=height` accumulating
per-block subsidies. -/
def total_supply : Nat → Int
  | 0 => get_block_subsidy 0
  | h + 1 => total_supply h + get_block_subsidy (h + 1)

/-! ## Block validation (`src/block.rs`) -/

/-- Simplified transaction id: a 32-byte array, all zero except the
first four bytes, which take `version & 0xff`, `inputs.len() & 0xff`,
`outputs.len() & 0xff` and `lock_time & 0xff`. -/
def calculate_tx_id (tx : Transaction) : List Nat :=
  ((((List.replicate 32 0).set 0 (tx.version &&& 0xff)).set 1
      (tx.inputs.length &&& 0xff)).set 2
      (tx.outputs.length &&& 0xff)).set 3 (tx.lock_time &&& 0xff)

/-- Minimal header validation: version ≥ 1 and bits ≠ 0. -/
def validate_block_header (header : BlockHeader) : Except ConsensusError Bool :=
  if header.version < 1 then .ok false
  else if header.bits = 0 then .ok false
  else .ok true

/-- Insert one UTXO per output of `tx_id`, keyed by `(tx_id, index)`. -/
def insert_outputs (tx_id : List Nat) (height : Nat) :
    List TransactionOutput → Nat → UtxoSet → UtxoSet
  | [], _, us => us
  | o :: rest, i, us =>
      insert_outputs tx_id height rest (i + 1)
        (us_insert us ⟨tx_id, i⟩ ⟨o.value, o.script_pubkey, height⟩)

/-- `apply_transaction`: remove spent inputs (except coinbase), then
insert one UTXO per output. -/
def apply_transaction (tx : Transaction) (us : UtxoSet) (height : Nat) :
    Except ConsensusError UtxoSet :=
  let us1 :=
    if is_coinbase tx then us
    else tx.inputs.foldl (fun acc inp => us_remove acc inp.prevout) us
  .ok (insert_outputs (calculate_tx_id tx) height tx.outputs 0 us1)

/-- Step 4 of `connect_block`: apply every transaction in order. -/
def apply_all_transactions : List Transaction → UtxoSet → Nat →
    Except ConsensusError UtxoSet
  | [], us, _ => .ok us
  | tx :: rest, us, height =>
    match apply_transaction tx us height with
    | .error e => .error e
    | .ok us' => apply_all_transactions rest us' height

/-- The inner loop of `connect_block` step 2: verify the unlocking
script of every input whose referenced UTXO is present (transaction
index `i`, input index `j`). -/
def verify_input_scripts (ripemd160 : List Nat → List Nat)
    (verify_signature : List Nat → List Nat → Nat → Bool)
    (us : UtxoSet) (i : Nat) :
    List TransactionInput → Nat → Except ConsensusError (Option ValidationResult)
  | [], _ => .ok none
  | inp :: rest, j =>
    match us_get us inp.prevout with
    | some utxo =>
      match verify_script ripemd160 verify_signature inp.script_sig utxo.script_pubkey none 0 with
      | .error e => .error e
      | .ok true => verify_input_scripts ripemd160 verify_signature us i rest (j + 1)
      | .ok false =>
          .ok (some (.Invalid ("Invalid script at transaction " ++ toString i ++ ", input " ++ toString j)))
    | none => verify_input_scripts ripemd160 verify_signature us i rest (j + 1)

/-- The outer loop of `connect_block` step 2: structural check, input
check and script verification per transaction, accumulating fees.
Returns the first `Invalid` result on the left, or the fee total. -/
def validate_transactions (ripemd160 : List Nat → List Nat)
    (verify_signature : List Nat → List Nat → Nat → Bool)
    (us : UtxoSet) (height : Nat) :
    List Transaction → Nat → Int →
    Except ConsensusError (Sum ValidationResult Int)
  | [], _, total_fees => .ok (.inr total_fees)
  | tx :: rest, i, total_fees =>
    match check_transaction tx with
    | .error e => .error e
    | .ok (.Invalid _) =>
        .ok (.inl (.Invalid ("Invalid transaction at index " ++ toString i)))
    | .ok .Valid =>
      match check_tx_inputs tx us height with
      | .error e => .error e
      | .ok (.Invalid _, _) =>
          .ok (.inl (.Invalid ("Invalid transaction inputs at index " ++ toString i)))
      | .ok (.Valid, fee) =>
        if is_coinbase tx then
          validate_transactions ripemd160 verify_signature us height rest (i + 1) (total_fees + fee)
        else
          match verify_input_scripts ripemd160 verify_signature us i tx.inputs 0 with
          | .error e => .error e
          | .ok (some inv) => .ok (.inl inv)
          | .ok none =>
              validate_transactions ripemd160 verify_signature us height rest (i + 1) (total_fees + fee)

/-- `connect_block`: header validation, per-transaction validation
against the pre-block UTXO set, coinbase payout check, and only then
application of all transactions. -/
def connect_block (ripemd160 : List Nat → List Nat)
    (verify_signature : List Nat → List Nat → Nat → Bool)
    (block : Block) (utxo_set : UtxoSet) (height : Nat) :
    Except ConsensusError (ValidationResult × UtxoSet) :=
  match validate_block_header block.header with
  | .error e => .error e
  | .ok hv =>
    if ¬hv then .ok (.Invalid "Invalid block header", utxo_set)
    else
      match validate_transactions ripemd160 verify_signature utxo_set height block.transactions 0 0 with
      | .error e => .error e
      | .ok (.inl inv) => .ok (inv, utxo_set)
      | .ok (.inr total_fees) =>
        match block.transactions with
        | [] => .ok (.Invalid "Block must have at least one transaction", utxo_set)
        | coinbase :: _ =>
          if ¬is_coinbase coinbase then
            .ok (.Invalid "First transaction must be coinbase", utxo_set)
          else
            let subsidy := get_block_subsidy height
            let coinbase_output : Int := (coinbase.outputs.map (fun o => o.value)).sum
            if coinbase_output > total_fees + subsidy then
              .ok (.Invalid "Coinbase output exceeds fees + subsidy", utxo_set)
            else
              match apply_all_transactions block.transactions utxo_set height with
              | .error e => .error e
              | .ok us' => .ok (.Valid, us')

/-! ## Proof of work (`src/pow.rs`)

`U256` is `[u64; 4]`, word 0 least significant, modelled as a 4-element
`List Nat` with every word `< 2^64` maintained by explicit truncation
exactly where the u64 arithmetic truncates. -/

/-- `U256::zero`. -/
def u256_zero : List Nat := [0, 0, 0, 0]

/-- `U256::from_u32`. -/
def u256_from_u32 (value : Nat) : List Nat := [value, 0, 0, 0]

/-- Word `i` of a `U256` (0 when out of range). -/
def u256_word (x : List Nat) (i : Nat) : Nat := x.getD i 0

/-- `result.0[i] |= v` on a word array. -/
def u256_set_or (x : List Nat) (i v : Nat) : List Nat :=
  x.set i ((x.getD i 0) ||| v)

/-- `U256::shl`: the source's word-by-word left shift.  `self.0[i] <<
bit_shift` is u64 arithmetic, hence the `% 2^64`. -/
def u256_shl (x : List Nat) (shift : Nat) : List Nat :=
  if 256 ≤ shift then u256_zero
  else
    let word_shift := shift / 64
    let bit_shift := shift % 64
    (List.range 4).foldl
      (fun r i =>
        if i + word_shift < 4 then
          let r1 := u256_set_or r (i + word_shift)
            ((u256_word x i <<< bit_shift) % 18446744073709551616)
          if 0 < bit_shift ∧ i + word_shift + 1 < 4 then
            u256_set_or r1 (i + word_shift + 1) (u256_word x i >>> (64 - bit_shift))
          else r1
        else r)
      u256_zero

/-- `U256::shr`: the source's word-by-word right shift (kept verbatim,
including the carry direction the source uses). -/
def u256_shr (x : List Nat) (shift : Nat) : List Nat :=
  if 256 ≤ shift then u256_zero
  else
    let word_shift := shift / 64
    let bit_shift := shift % 64
    (List.range 4).foldl
      (fun r i =>
        if word_shift ≤ i then
          let r1 := u256_set_or r (i - word_shift) (u256_word x i >>> bit_shift)
          if 0 < bit_shift ∧ i - word_shift + 1 < 4 then
            u256_set_or r1 (i - word_shift + 1)
              ((u256_word x i <<< (64 - bit_shift)) % 18446744073709551616)
          else r1
        else r)
      u256_zero

/-- The `Ord for U256` loop: compare word pairs from most significant
down. -/
def cmp_word_pairs : List (Nat × Nat) → Ordering
  | [] => .eq
  | (a, b) :: rest =>
    match compare a b with
    | .eq => cmp_word_pairs rest
    | o => o

/-- `U256::cmp`. -/
def u256_cmp (a b : List Nat) : Ordering :=
  cmp_word_pairs (a.reverse.zip b.reverse)

/-- `U256` strict order (`PartialOrd` via `Ord`). -/
def u256_lt (a b : List Nat) : Bool := u256_cmp a b == Ordering.lt

/-- `U256::from_bytes`: word `i` is the little-endian value of bytes
`8i..8i+8`. -/
def u256_from_bytes (bytes : List Nat) : List Nat :=
  (List.range 4).map (fun i => leNat ((bytes.drop (8 * i)).take 8))

/-- Numeric value of a `U256` word array. -/
def u256_to_nat (x : List Nat) : Nat :=
  x.getD 0 0 + (x.getD 1 0) * 2 ^ 64 + (x.getD 2 0) * 2 ^ 128 + (x.getD 3 0) * 2 ^ 192

/-- `expand_target`: split compact bits into exponent byte and 3-byte
mantissa, reject exponent < 3 or > 32, reject exponent > 29, then shift
the mantissa by `8·|exponent − 3|`. -/
def expand_target (bits : Nat) : Except ConsensusError (List Nat) :=
  let exponent := (bits >>> 24) % 256
  let mantissa := bits &&& 0x00ffffff
  if exponent < 3 ∨ 32 < exponent then
    .error (.InvalidProofOfWork "Invalid target exponent")
  else if 29 < exponent then
    .error (.InvalidProofOfWork "Target too large")
  else if mantissa = 0 then .ok u256_zero
  else if exponent ≤ 3 then
    .ok (u256_shr (u256_from_u32 mantissa) (8 * (3 - exponent)))
  else
    let shift := 8 * (exponent - 3)
    if 255 ≤ shift then .error (.InvalidProofOfWork "Target too large")
    else .ok (u256_shl (u256_from_u32 mantissa) shift)

/-- `serialize_header`: the fixed 80-byte layout; every 4-byte field the
`as u32` truncation, little-endian; hashes raw. -/
def serialize_header (header : BlockHeader) : List Nat :=
  leBytes 4 ((header.version % 4294967296).toNat) ++
  header.prev_block_hash ++
  header.merkle_root ++
  leBytes 4 (header.timestamp % 4294967296) ++
  leBytes 4 (header.bits % 4294967296) ++
  leBytes 4 (header.nonce % 4294967296)

/-- `check_proof_of_work`: double SHA-256 of the serialized header,
read through `U256::from_bytes`, strictly below the expanded target. -/
def check_proof_of_work (header : BlockHeader) : Except ConsensusError Bool :=
  let header_bytes := serialize_header header
  let hash_value := u256_from_bytes (sha256 (sha256 header_bytes))
  match expand_target header.bits with
  | .error e => .error e
  | .ok target => .ok (u256_lt hash_value target)

/-! ## Specification-side definitions

Used only to compare code behaviour against the specification's words
(claims C4 and C5); they are written from the spec, not the source. -/

/-- Bitcoin variable-length integer, as laid out in the spec:
`value < 0xfd` one byte; `≤ 0xffff` `0xfd` + u16 LE; `≤ 0xffffffff`
`0xfe` + u32 LE; else `0xff` + u64 LE. -/
def varint (v : Nat) : List Nat :=
  if v < 0xfd then [v]
  else if v ≤ 0xffff then 0xfd :: leBytes 2 v
  else if v ≤ 0xffffffff then 0xfe :: leBytes 4 v
  else 0xff :: leBytes 8 v

/-- Canonical transaction serialization as the spec words it:
version(4B LE) ‖ varint(#in) ‖ per-input prevout hash(32B) ‖ prevout
index(4B LE) ‖ varint(script length) ‖ script ‖ sequence(4B LE) ‖
varint(#out) ‖ per-output value(8B LE) ‖ varint(script length) ‖ script
‖ locktime(4B LE). -/
def canonical_tx_serialization (tx : Transaction) : List Nat :=
  leBytes 4 tx.version ++
  varint tx.inputs.length ++
  (tx.inputs.map (fun inp =>
      inp.prevout.hash ++ leBytes 4 inp.prevout.index ++
      varint inp.script_sig.length ++ inp.script_sig ++
      leBytes 4 inp.sequence)).flatten ++
  varint tx.outputs.length ++
  (tx.outputs.map (fun o =>
      leBytes 8 ((o.value % 18446744073709551616).toNat) ++
      varint o.script_pubkey.length ++ o.script_pubkey)).flatten ++
  leBytes 4 tx.lock_time

/-! ## Claim C1: `connect_block` never mutates the UTXO set on `Invalid` -/

/-- C1.  For every block, UTXO set and height, if `connect_block`
returns an `Invalid` result — any failure in header validation,
per-transaction checks, script verification, or the coinbase payout
check — the UTXO set it returns alongside that result is exactly the
UTXO set passed in: no partial mutation occurs before all checks
pass. -/
theorem connect_block_invalid_leaves_utxo_unchanged
    (rm : List Nat → List Nat) (vs : List Nat → List Nat → Nat → Bool)
    (block : Block) (us : UtxoSet) (height : Nat) (msg : String) (us' : UtxoSet)
    (h : connect_block rm vs block us height = .ok (.Invalid msg, us')) :
    us' = us := by
  unfold connect_block at h
  repeat' split at h
  all_goals try simp_all
  all_goals (split at h <;> simp_all)

/-- Witness for C1: an empty block is rejected and the (non-empty) UTXO
set comes back exactly as passed in. -/
theorem connect_block_invalid_leaves_utxo_unchanged_witness :
    connect_block (fun _ => []) (fun _ _ _ => false)
        ⟨⟨1, List.replicate 32 0, List.replicate 32 0, 0, 0x1d00ffff, 0⟩, []⟩
        [(⟨List.replicate 32 7, 0⟩, ⟨9, [], 0⟩)] 0 =
      .ok (.Invalid "Block must have at least one transaction",
           [(⟨List.replicate 32 7, 0⟩, ⟨9, [], 0⟩)]) ∧
    ([(⟨List.replicate 32 7, 0⟩, ⟨9, [], 0⟩)] : UtxoSet) =
      [(⟨List.replicate 32 7, 0⟩, ⟨9, [], 0⟩)] := by
  refine ⟨by decide, ?_⟩
  exact connect_block_invalid_leaves_utxo_unchanged (fun _ => []) (fun _ _ _ => false)
    ⟨⟨1, List.replicate 32 0, List.replicate 32 0, 0, 0x1d00ffff, 0⟩, []⟩
    [(⟨List.replicate 32 7, 0⟩, ⟨9, [], 0⟩)] 0
    "Block must have at least one transaction"
    [(⟨List.replicate 32 7, 0⟩, ⟨9, [], 0⟩)] (by decide)

/-! ## Claim C2: `verify_script` accepts only a unary truthy final stack -/

/-- C2.  `verify_script` returns true only when every phase evaluated
true and the final shared stack has exactly one element, that element
truthy; in particular `verify_script([OP_1], [OP_1], no witness)`
returns false although both remaining elements are truthy. -/
theorem verify_script_accepts_iff_unary_truthy :
    (∀ (rm : List Nat → List Nat) (vs : List Nat → List Nat → Nat → Bool)
        (ss spk : List Nat) (w : Option (List Nat)) (flags : Nat),
      verify_script rm vs ss spk w flags = .ok true →
      ∃ s1 s2 s3,
        eval_script rm vs ss [] flags = .ok (true, s1) ∧
        eval_script rm vs spk s1 flags = .ok (true, s2) ∧
        (match w with
         | some wi => eval_script rm vs wi s2 flags = .ok (true, s3)
         | none => s3 = s2) ∧
        s3.length = 1 ∧ item_truthy (s3.headD []) = true) ∧
    (∀ (rm : List Nat → List Nat) (vs : List Nat → List Nat → Nat → Bool),
      verify_script rm vs [0x51] [0x51] none 0 = .ok false) := by
  constructor
  · intro rm vs ss spk w flags h
    unfold verify_script at h
    cases heval1 : eval_script rm vs ss [] flags with
    | error e => simp [heval1] at h
    | ok p1 =>
      obtain ⟨b1, stack1⟩ := p1
      cases b1
      · simp [heval1] at h
      · simp only [heval1] at h
        cases heval2 : eval_script rm vs spk stack1 flags with
        | error e => simp [heval2] at h
        | ok p2 =>
          obtain ⟨b2, stack2⟩ := p2
          cases b2
          · simp [heval2] at h
          · simp only [heval2] at h
            cases w with
            | none =>
              simp only [Except.ok.injEq] at h
              simp only [final_stack_check, Bool.and_eq_true, beq_iff_eq] at h
              exact ⟨stack1, stack2, stack2, rfl, heval2, rfl, h.1, h.2⟩
            | some wi =>
              cases heval3 : eval_script rm vs wi stack2 flags with
              | error e => simp [heval3] at h
              | ok p3 =>
                obtain ⟨b3, stack3⟩ := p3
                cases b3
                · simp [heval3] at h
                · simp only [heval3] at h
                  simp only [Except.ok.injEq] at h
                  simp only [final_stack_check, Bool.and_eq_true, beq_iff_eq] at h
                  exact ⟨stack1, stack2, stack3, rfl, heval2, heval3, h.1, h.2⟩
  · intro rm vs
    rfl

/-- Witness for C2: a run that accepts (`[OP_1]` then an empty
scriptPubKey) indeed ends with exactly one truthy element. -/
theorem verify_script_accepts_iff_unary_truthy_witness :
    ∃ s1 s2 s3,
      eval_script (fun _ => []) (fun _ _ _ => false) [0x51] [] 0 = .ok (true, s1) ∧
      eval_script (fun _ => []) (fun _ _ _ => false) [] s1 0 = .ok (true, s2) ∧
      (match (none : Option (List Nat)) with
       | some wi => eval_script (fun _ => []) (fun _ _ _ => false) wi s2 0 = .ok (true, s3)
       | none => s3 = s2) ∧
      s3.length = 1 ∧ item_truthy (s3.headD []) = true :=
  verify_script_accepts_iff_unary_truthy.1 (fun _ => []) (fun _ _ _ => false)
    [0x51] [] none 0 (by decide)

/-! ## Claims C6, C9, C10: script engine resource limits and phases -/

set_option maxRecDepth 40000 in
/-- Every arm of the source's opcode match returns `Ok`. -/
theorem execute_opcode_is_ok (rm : List Nat → List Nat)
    (vs : List Nat → List Nat → Nat → Bool) (op : Nat)
    (stack : List (List Nat)) (flags : Nat) :
    ∃ b s, execute_opcode rm vs op stack flags = .ok (b, s) :=
  ⟨(execute_opcode_core rm vs op stack flags).1,
   (execute_opcode_core rm vs op stack flags).2, rfl⟩

/-- The only hard errors `eval_steps` can produce are the two
resource-limit messages. -/
theorem eval_steps_error_is_resource_limit (rm : List Nat → List Nat)
    (vs : List Nat → List Nat → Nat → Bool) (flags : Nat) :
    ∀ (script : List Nat) (opc : Nat) (stack : List (List Nat)) (e : ConsensusError),
      eval_steps rm vs flags script opc stack = .error e →
      e = .ScriptExecution "Operation limit exceeded" ∨
      e = .ScriptExecution "Stack overflow" := by
  intro script
  induction script with
  | nil => intro opc stack e h; simp [eval_steps] at h
  | cons op rest ih =>
    intro opc stack e h
    unfold eval_steps at h
    split at h
    · left; exact (Except.error.inj h).symm
    · split at h
      · right; exact (Except.error.inj h).symm
      · obtain ⟨b, s, hex⟩ := execute_opcode_is_ok rm vs op stack flags
        rw [hex] at h
        cases b
        · simp at h
        · exact ih (opc + 1) s e h

/-- A run that returns `Ok (true, s)` ends with `final_stack_check s`
true. -/
theorem eval_steps_true_final (rm : List Nat → List Nat)
    (vs : List Nat → List Nat → Nat → Bool) (flags : Nat) :
    ∀ (script : List Nat) (opc : Nat) (stack s : List (List Nat)),
      eval_steps rm vs flags script opc stack = .ok (true, s) →
      final_stack_check s = true := by
  intro script
  induction script with
  | nil =>
    intro opc stack s h
    simp only [eval_steps, Except.ok.injEq, Prod.mk.injEq] at h
    rw [← h.2, ← h.1]
  | cons op rest ih =>
    intro opc stack s h
    unfold eval_steps at h
    split at h
    · simp at h
    · split at h
      · simp at h
      · obtain ⟨b, s', hex⟩ := execute_opcode_is_ok rm vs op stack flags
        rw [hex] at h
        cases b
        · simp at h
        · exact ih (opc + 1) s' s h

/-- C6 (amended).  The resource-limit hard errors are raised by the
checks at the start of each opcode iteration: with an opcode pending,
an operation count already at the 201 limit, or a stack deeper than
1000, is a hard error; and every hard error of `eval_script` is one of
those two resource aborts, so they are distinct from the logical
`Ok(false)` failure. -/
theorem eval_script_resource_limit_errors :
    (∀ (rm : List Nat → List Nat) (vs : List Nat → List Nat → Nat → Bool)
        (flags : Nat) (script : List Nat) (opc : Nat) (stack : List (List Nat)),
      script ≠ [] → MAX_SCRIPT_OPS ≤ opc →
      eval_steps rm vs flags script opc stack =
        .error (.ScriptExecution "Operation limit exceeded")) ∧
    (∀ (rm : List Nat → List Nat) (vs : List Nat → List Nat → Nat → Bool)
        (flags : Nat) (script : List Nat) (opc : Nat) (stack : List (List Nat)),
      script ≠ [] → opc < MAX_SCRIPT_OPS → MAX_STACK_SIZE < stack.length →
      eval_steps rm vs flags script opc stack =
        .error (.ScriptExecution "Stack overflow")) ∧
    (∀ (rm : List Nat → List Nat) (vs : List Nat → List Nat → Nat → Bool)
        (script : List Nat) (stack : List (List Nat)) (flags : Nat) (e : ConsensusError),
      eval_script rm vs script stack flags = .error e →
      e = .ScriptExecution "Operation limit exceeded" ∨
      e = .ScriptExecution "Stack overflow") ∧
    (∀ (rm : List Nat → List Nat) (vs : List Nat → List Nat → Nat → Bool)
        (script : List Nat) (stack : List (List Nat)) (flags : Nat),
      eval_script rm vs script stack flags = eval_steps rm vs flags script 0 stack) := by
  refine ⟨?_, ?_, ?_, fun _ _ _ _ _ => rfl⟩
  · intro rm vs flags script opc stack hne hopc
    cases script with
    | nil => exact absurd rfl hne
    | cons op rest =>
      unfold eval_steps
      rw [if_pos (by simp only [MAX_SCRIPT_OPS] at hopc ⊢; omega)]
  · intro rm vs flags script opc stack hne hopc hstack
    cases script with
    | nil => exact absurd rfl hne
    | cons op rest =>
      unfold eval_steps
      rw [if_neg (by simp only [MAX_SCRIPT_OPS] at hopc ⊢; omega), if_pos hstack]
  · intro rm vs script stack flags e h
    exact eval_steps_error_is_resource_limit rm vs flags script 0 stack e h

set_option maxRecDepth 40000 in
/-- Witness for C6: the 202nd pending opcode errors, and a pending
opcode over a 1001-deep stack errors. -/
theorem eval_script_resource_limit_errors_witness :
    eval_steps (fun _ => []) (fun _ _ _ => false) 0 [0x00] 201 [] =
      .error (.ScriptExecution "Operation limit exceeded") ∧
    eval_steps (fun _ => []) (fun _ _ _ => false) 0 [0x00] 0 (List.replicate 1001 []) =
      .error (.ScriptExecution "Stack overflow") :=
  ⟨eval_script_resource_limit_errors.1 (fun _ => []) (fun _ _ _ => false) 0 [0x00] 201 []
      (by decide) (by decide),
   eval_script_resource_limit_errors.2.1 (fun _ => []) (fun _ _ _ => false) 0 [0x00] 0
      (List.replicate 1001 []) (by decide) (by decide) (by decide)⟩

set_option maxRecDepth 40000 in
/-- Counterexample to C6 as stated: the stack-depth check runs only
before an opcode executes, so a push by the final opcode can leave the
stack at depth 1001 — the depth exceeded 1000 during execution — yet
`eval_script` returns `Ok(false)` rather than a hard error. -/
theorem eval_script_depth_escape_counterexample :
    eval_script (fun _ => []) (fun _ _ _ => false) [0x51] (List.replicate 1000 [1]) 0 =
      .ok (false, [1] :: List.replicate 1000 [1]) ∧
    ([1] :: List.replicate 1000 ([1] : List Nat)).length = 1001 := by
  constructor
  · decide
  · decide

/-- C9.  The exactly-one-truthy-element condition is enforced after
each phase: a scriptSig phase (or a scriptPubKey phase when a witness
follows) whose stack is not exactly one truthy element makes
`verify_script` return false, whatever the remaining phases are.  In
particular `[OP_1, OP_1]` followed by `[OP_DROP]` is rejected even
though running the remaining phase would have left exactly one truthy
element. -/
theorem verify_script_checks_each_phase :
    (∀ (rm : List Nat → List Nat) (vs : List Nat → List Nat → Nat → Bool)
        (ss spk : List Nat) (w : Option (List Nat)) (flags : Nat)
        (b : Bool) (s1 : List (List Nat)),
      eval_script rm vs ss [] flags = .ok (b, s1) →
      ¬(s1.length = 1 ∧ item_truthy (s1.headD []) = true) →
      verify_script rm vs ss spk w flags = .ok false) ∧
    (∀ (rm : List Nat → List Nat) (vs : List Nat → List Nat → Nat → Bool)
        (ss spk wi : List Nat) (flags : Nat) (s1 : List (List Nat))
        (b : Bool) (s2 : List (List Nat)),
      eval_script rm vs ss [] flags = .ok (true, s1) →
      eval_script rm vs spk s1 flags = .ok (b, s2) →
      ¬(s2.length = 1 ∧ item_truthy (s2.headD []) = true) →
      verify_script rm vs ss spk (some wi) flags = .ok false) ∧
    (∀ (rm : List Nat → List Nat) (vs : List Nat → List Nat → Nat → Bool),
      verify_script rm vs [0x51, 0x51] [0x75] none 0 = .ok false) ∧
    (∀ (rm : List Nat → List Nat) (vs : List Nat → List Nat → Nat → Bool) (flags : Nat),
      eval_script rm vs [0x75] [[1], [1]] flags = .ok (true, [[1]])) := by
  refine ⟨?_, ?_, fun _ _ => rfl, fun _ _ _ => rfl⟩
  · intro rm vs ss spk w flags b s1 h hns
    cases b
    · simp [verify_script, h]
    · exfalso
      apply hns
      have := eval_steps_true_final rm vs flags ss 0 [] s1 h
      simpa [final_stack_check, Bool.and_eq_true, beq_iff_eq] using this
  · intro rm vs ss spk wi flags s1 b s2 h1 h2 hns
    cases b
    · simp [verify_script, h1, h2]
    · exfalso
      apply hns
      have := eval_steps_true_final rm vs flags spk 0 s1 s2 h2
      simpa [final_stack_check, Bool.and_eq_true, beq_iff_eq] using this

/-- Witness for C9: `[OP_1, OP_1]` leaves two truthy elements, so the
block of any scriptPubKey — here `[OP_DROP]`, which would otherwise
leave one truthy element — is immediate. -/
theorem verify_script_checks_each_phase_witness :
    verify_script (fun _ => []) (fun _ _ _ => false) [0x51, 0x51] [0x75] none 0 =
      .ok false :=
  verify_script_checks_each_phase.1 (fun _ => []) (fun _ _ _ => false)
    [0x51, 0x51] [0x75] none 0 false [[1], [1]] (by decide) (by decide)

/-- C10.  `OP_DEPTH` pushes `stack.len() as u8` and `OP_SIZE` pushes
`item.len() as u8`: single bytes reduced modulo 256, which differ from
the true count whenever it is at least 256. -/
theorem op_depth_op_size_push_mod_256 :
    (∀ (rm : List Nat → List Nat) (vs : List Nat → List Nat → Nat → Bool)
        (stack : List (List Nat)) (flags : Nat),
      execute_opcode rm vs 0x74 stack flags = .ok (true, [stack.length % 256] :: stack)) ∧
    (∀ (rm : List Nat → List Nat) (vs : List Nat → List Nat → Nat → Bool)
        (item : List Nat) (rest : List (List Nat)) (flags : Nat),
      execute_opcode rm vs 0x82 (item :: rest) flags =
        .ok (true, [item.length % 256] :: item :: rest)) ∧
    (∀ n : Nat, 256 ≤ n → n % 256 ≠ n) := by
  refine ⟨fun _ _ _ _ => rfl, fun _ _ _ _ _ => rfl, ?_⟩
  intro n h hc
  have := Nat.mod_lt n (show 0 < 256 by omega)
  omega

set_option maxRecDepth 40000 in
/-- Witness for C10: a 300-deep stack makes `OP_DEPTH` push 44, not
300. -/
theorem op_depth_op_size_push_mod_256_witness :
    execute_opcode (fun _ => []) (fun _ _ _ => false) 0x74
        (List.replicate 300 []) 0 = .ok (true, [44] :: List.replicate 300 []) ∧
    (300 % 256 ≠ 300) := by
  refine ⟨?_, op_depth_op_size_push_mod_256.2.2 300 (by decide)⟩
  have h := op_depth_op_size_push_mod_256.1 (fun _ => []) (fun _ _ _ => false)
    (List.replicate 300 []) 0
  exact h.trans (by decide)

/-! ## Claim C3: `check_tx_inputs` -/

/-- When every referenced outpoint is present, the input loop returns
the sum of the referenced UTXO values. -/
theorem sum_input_values_all_present (us : UtxoSet) :
    ∀ (inputs : List TransactionInput) (i : Nat),
      (∀ inp ∈ inputs, us_get us inp.prevout ≠ none) →
      sum_input_values us inputs i =
        .inr ((inputs.map (fun inp => ((us_get us inp.prevout).map UTXO.value).getD 0)).sum) := by
  intro inputs
  induction inputs with
  | nil => intro i _; simp [sum_input_values]
  | cons inp rest ih =>
    intro i hall
    have hne := hall inp (List.mem_cons_self inp rest)
    cases hget : us_get us inp.prevout with
    | none => exact absurd hget hne
    | some utxo =>
      have hrest : ∀ x ∈ rest, us_get us x.prevout ≠ none :=
        fun x hx => hall x (List.mem_cons_of_mem inp hx)
      simp only [sum_input_values, hget, ih (i + 1) hrest, List.map_cons, List.sum_cons,
        Option.map_some', Option.getD_some]

/-- When some referenced outpoint is missing, the input loop returns a
message. -/
theorem sum_input_values_missing (us : UtxoSet) :
    ∀ (inputs : List TransactionInput) (i : Nat),
      (∃ inp ∈ inputs, us_get us inp.prevout = none) →
      ∃ msg, sum_input_values us inputs i = .inl msg := by
  intro inputs
  induction inputs with
  | nil => intro i h; simp at h
  | cons inp rest ih =>
    intro i h
    cases hget : us_get us inp.prevout with
    | none =>
      refine ⟨"Input " ++ toString i ++ " not found in UTXO set", ?_⟩
      simp only [sum_input_values, hget]
    | some utxo =>
      obtain ⟨x, hx, hxnone⟩ := h
      rcases List.mem_cons.mp hx with rfl | hxr
      · rw [hget] at hxnone; cases hxnone
      · obtain ⟨msg, hmsg⟩ := ih (i + 1) ⟨x, hxr, hxnone⟩
        exact ⟨msg, by simp only [sum_input_values, hget, hmsg]⟩

/-- C3.  `check_tx_inputs` returns `(Valid, 0)` for a coinbase;
`(Invalid, 0)` for a non-coinbase with a missing referenced outpoint;
and for a non-coinbase with all outpoints present it is `Valid` exactly
when the referenced input total is at least the output total, with the
fee exactly input total minus output total, and `(Invalid, 0)`
otherwise. -/
theorem check_tx_inputs_cases (tx : Transaction) (us : UtxoSet) (height : Nat) :
    (is_coinbase tx = true → check_tx_inputs tx us height = .ok (.Valid, 0)) ∧
    (is_coinbase tx = false →
      (∃ inp ∈ tx.inputs, us_get us inp.prevout = none) →
      ∃ msg, check_tx_inputs tx us height = .ok (.Invalid msg, 0)) ∧
    (is_coinbase tx = false →
      (∀ inp ∈ tx.inputs, us_get us inp.prevout ≠ none) →
      (((tx.outputs.map (fun o => o.value)).sum ≤
          (tx.inputs.map (fun inp => ((us_get us inp.prevout).map UTXO.value).getD 0)).sum →
        check_tx_inputs tx us height =
          .ok (.Valid,
            (tx.inputs.map (fun inp => ((us_get us inp.prevout).map UTXO.value).getD 0)).sum -
              (tx.outputs.map (fun o => o.value)).sum)) ∧
       ((tx.inputs.map (fun inp => ((us_get us inp.prevout).map UTXO.value).getD 0)).sum <
          (tx.outputs.map (fun o => o.value)).sum →
        check_tx_inputs tx us height = .ok (.Invalid "Insufficient input value", 0)))) := by
  refine ⟨?_, ?_, ?_⟩
  · intro hcb
    simp [check_tx_inputs, hcb]
  · intro hcb hmiss
    obtain ⟨msg, hmsg⟩ := sum_input_values_missing us tx.inputs 0 hmiss
    exact ⟨msg, by simp [check_tx_inputs, hcb, hmsg]⟩
  · intro hcb hall
    have hsum := sum_input_values_all_present us tx.inputs 0 hall
    constructor
    · intro hle
      simp only [check_tx_inputs, hcb, Bool.false_eq_true, if_false, hsum]
      rw [if_neg (by omega)]
    · intro hlt
      simp only [check_tx_inputs, hcb, Bool.false_eq_true, if_false, hsum]
      rw [if_pos hlt]

/-- Witness for C3: a single 1000-satoshi UTXO spent into a
900-satoshi output yields `Valid` with fee 100. -/
theorem check_tx_inputs_cases_witness :
    check_tx_inputs
        ⟨1, [⟨⟨List.replicate 32 1, 0⟩, [], 0xffffffff⟩], [⟨900, []⟩], 0⟩
        [(⟨List.replicate 32 1, 0⟩, ⟨1000, [], 0⟩)] 0 = .ok (.Valid, 100) := by
  have h := (check_tx_inputs_cases
      ⟨1, [⟨⟨List.replicate 32 1, 0⟩, [], 0xffffffff⟩], [⟨900, []⟩], 0⟩
      [(⟨List.replicate 32 1, 0⟩, ⟨1000, [], 0⟩)] 0).2.2 (by decide)
      (by decide)
  exact h.1 (by decide) |>.trans (by decide)

/-! ## Claim C4: `calculate_tx_id` -/

/-- The `& 0xff` truncations in `calculate_tx_id` are reductions mod
256. -/
theorem and_255_eq_mod (x : Nat) : x &&& 255 = x % 256 := by
  simpa using Nat.and_pow_two_sub_one_eq_mod x 8

/-- C4 (amended).  `calculate_tx_id` is the source's simplified stub:
the first four bytes are version, input count, output count and lock
time, each reduced mod 256, and the remaining 28 bytes are zero — it is
not the double-SHA256 of the canonical serialization. -/
theorem calculate_tx_id_is_simplified_stub (tx : Transaction) :
    calculate_tx_id tx =
      [tx.version % 256, tx.inputs.length % 256, tx.outputs.length % 256,
        tx.lock_time % 256] ++ List.replicate 28 0 := by
  simp only [calculate_tx_id, and_255_eq_mod]
  rfl

set_option maxRecDepth 400000 in
/-- Counterexample to C4 as stated: for a concrete one-input,
one-output transaction, `calculate_tx_id` differs from the double
SHA-256 of the canonical serialization the claim prescribes. -/
theorem calculate_tx_id_not_double_sha256 :
    calculate_tx_id ⟨1, [⟨⟨List.replicate 32 0, 0⟩, [], 0xffffffff⟩], [⟨1000, []⟩], 0⟩ ≠
      sha256d (canonical_tx_serialization
        ⟨1, [⟨⟨List.replicate 32 0, 0⟩, [], 0xffffffff⟩], [⟨1000, []⟩], 0⟩) := by
  decide

/-! ## Claim C7: `total_supply` -/

/-- For every height the subsidy equals the initial subsidy shifted by
the halving period: the explicit zero from the 64th halving on agrees
with the shift, which is already zero from period 33 on. -/
theorem get_block_subsidy_eq_shift (h : Nat) :
    get_block_subsidy h =
      (((5000000000 : Nat) >>> (h / HALVING_INTERVAL) : Nat) : Int) := by
  by_cases hp : 64 ≤ h / HALVING_INTERVAL
  · have hz : (5000000000 : Nat) >>> (h / HALVING_INTERVAL) = 0 := by
      rw [Nat.shiftRight_eq_div_pow]
      apply Nat.div_eq_of_lt
      calc (5000000000 : Nat) < 2 ^ 33 := by norm_num
        _ ≤ 2 ^ (h / HALVING_INTERVAL) := Nat.pow_le_pow_right (by norm_num) (by omega)
    simp [get_block_subsidy, hp, hz]
  · have h50 : INITIAL_SUBSIDY.toNat = 5000000000 := by decide
    simp only [get_block_subsidy, hp, if_false, h50]

/-- The subsidy is never negative. -/
theorem get_block_subsidy_nonneg (h : Nat) : 0 ≤ get_block_subsidy h := by
  rw [get_block_subsidy_eq_shift]
  exact Int.ofNat_nonneg _

/-- `total_supply` as a `Finset` sum. -/
theorem total_supply_eq_range_sum (h : Nat) :
    total_supply h = ∑ k ∈ Finset.range (h + 1), get_block_subsidy k := by
  induction h with
  | zero => simp [total_supply]
  | succ n ih =>
    rw [total_supply, ih]
    conv_rhs => rw [Finset.sum_range_succ]

/-- Key bound: summing `x` right-shifted by `k / H` over any range is
at most `2·x·H`. -/
theorem sum_shift_div_le (H : Nat) (hH : 0 < H) :
    ∀ n x : Nat, (∑ k ∈ Finset.range n, x >>> (k / H)) ≤ 2 * x * H := by
  intro n
  induction n using Nat.strong_induction_on with
  | _ n ih =>
    intro x
    by_cases hn : n ≤ H
    · calc (∑ k ∈ Finset.range n, x >>> (k / H))
          = ∑ _k ∈ Finset.range n, x := by
            apply Finset.sum_congr rfl
            intro k hk
            rw [Nat.div_eq_of_lt (lt_of_lt_of_le (Finset.mem_range.mp hk) hn)]
            exact Nat.shiftRight_zero
        _ = n * x := by rw [Finset.sum_const, Finset.card_range, smul_eq_mul]
        _ ≤ H * x := Nat.mul_le_mul_right x hn
        _ ≤ 2 * x * H := by nlinarith
    · have hsplit : n = H + (n - H) := by omega
      rw [hsplit, Finset.sum_range_add]
      have hfirst : (∑ i ∈ Finset.range H, x >>> (i / H)) = H * x := by
        calc (∑ i ∈ Finset.range H, x >>> (i / H))
            = ∑ _i ∈ Finset.range H, x := by
              apply Finset.sum_congr rfl
              intro k hk
              rw [Nat.div_eq_of_lt (Finset.mem_range.mp hk)]
              exact Nat.shiftRight_zero
          _ = H * x := by rw [Finset.sum_const, Finset.card_range, smul_eq_mul]
      have hsecond : (∑ i ∈ Finset.range (n - H), x >>> ((H + i) / H)) =
          ∑ i ∈ Finset.range (n - H), (x >>> 1) >>> (i / H) := by
        apply Finset.sum_congr rfl
        intro k _
        rw [Nat.add_comm H k, Nat.add_div_right k hH, Nat.add_comm (k / H) 1,
          Nat.shiftRight_add]
      have hih := ih (n - H) (by omega) (x >>> 1)
      have hhalf : 2 * (x >>> 1) ≤ x := by
        rw [Nat.shiftRight_eq_div_pow, pow_one]
        omega
      calc (∑ i ∈ Finset.range H, x >>> (i / H)) +
            ∑ i ∈ Finset.range (n - H), x >>> ((H + i) / H)
          = H * x + ∑ i ∈ Finset.range (n - H), (x >>> 1) >>> (i / H) := by
            rw [hfirst, hsecond]
        _ ≤ H * x + 2 * (x >>> 1) * H := Nat.add_le_add_left hih _
        _ ≤ H * x + x * H := Nat.add_le_add_left (Nat.mul_le_mul_right H hhalf) _
        _ = 2 * x * H := by ring

/-- `total_supply` as a natural-number sum of shifted subsidies. -/
theorem total_supply_as_nat_sum (h : Nat) :
    total_supply h =
      (((∑ k ∈ Finset.range (h + 1), (5000000000 : Nat) >>> (k / HALVING_INTERVAL)) : Nat) : Int) := by
  rw [total_supply_eq_range_sum]
  exact (Finset.sum_congr rfl (fun k _ => get_block_subsidy_eq_shift k)).trans
    (Nat.cast_sum _ _).symm

/-- C7.  `total_supply h` is the sum of the per-block subsidies for
heights 0 through `h`, is monotonically non-decreasing in `h`, and
never exceeds `MAX_MONEY`. -/
theorem total_supply_sum_monotone_bounded :
    (∀ h : Nat, total_supply h = ∑ k ∈ Finset.range (h + 1), get_block_subsidy k) ∧
    (∀ h1 h2 : Nat, h1 ≤ h2 → total_supply h1 ≤ total_supply h2) ∧
    (∀ h : Nat, total_supply h ≤ MAX_MONEY) := by
  refine ⟨total_supply_eq_range_sum, ?_, ?_⟩
  · intro h1 h2 hle
    have hmono : Monotone total_supply := by
      apply monotone_nat_of_le_succ
      intro n
      have := get_block_subsidy_nonneg (n + 1)
      simp only [total_supply]
      omega
    exact hmono hle
  · intro h
    rw [total_supply_as_nat_sum]
    have hb := sum_shift_div_le HALVING_INTERVAL (by norm_num [HALVING_INTERVAL])
      (h + 1) 5000000000
    have : ((∑ k ∈ Finset.range (h + 1), (5000000000 : Nat) >>> (k / HALVING_INTERVAL)) : Nat) ≤
        2100000000000000 := by
      calc (∑ k ∈ Finset.range (h + 1), (5000000000 : Nat) >>> (k / HALVING_INTERVAL))
          ≤ 2 * 5000000000 * HALVING_INTERVAL := hb
        _ = 2100000000000000 := by norm_num [HALVING_INTERVAL]
    calc ((((∑ k ∈ Finset.range (h + 1), (5000000000 : Nat) >>> (k / HALVING_INTERVAL)) : Nat)) : Int)
        ≤ ((2100000000000000 : Nat) : Int) := Int.ofNat_le.mpr this
      _ = MAX_MONEY := by norm_num [MAX_MONEY]

/-- Witness for C7: monotonicity applied at concrete heights. -/
theorem total_supply_sum_monotone_bounded_witness :
    total_supply 2 ≤ total_supply 5 :=
  total_supply_sum_monotone_bounded.2.1 2 5 (by decide)

/-! ## Claim C8: `expand_target` -/

/-- `expand_target` hard-errors exactly for exponent byte < 3 or > 29:
the `> 32` and `shift ≥ 255` checks are subsumed, the latter being
unreachable for exponents ≤ 29. -/
theorem expand_target_error_iff (bits : Nat) :
    (∃ e, expand_target bits = .error e) ↔
      ((bits >>> 24) % 256 < 3 ∨ 29 < (bits >>> 24) % 256) := by
  unfold expand_target
  constructor
  · rintro ⟨err, herr⟩
    by_contra hc
    push_neg at hc
    rw [if_neg (by omega), if_neg (by omega)] at herr
    split at herr
    · exact Except.noConfusion herr
    · split at herr
      · exact Except.noConfusion herr
      · rw [if_neg (by omega)] at herr
        exact Except.noConfusion herr
  · intro hc
    by_cases h1 : (bits >>> 24) % 256 < 3 ∨ 32 < (bits >>> 24) % 256
    · exact ⟨.InvalidProofOfWork "Invalid target exponent", by rw [if_pos h1]⟩
    · exact ⟨.InvalidProofOfWork "Target too large",
        by rw [if_neg h1, if_pos (by omega)]⟩

/-- The numeric value of the expanded target: for exponent `e ∈ [3,29]`
and non-zero mantissa `m < 2^24`, `expand_target (e·2^24 + m)` succeeds
with value `m · 2^(8(e−3))`. -/
theorem expand_target_value (e m : Nat) (he3 : 3 ≤ e) (he29 : e ≤ 29)
    (hm : m < 16777216) (hm0 : m ≠ 0) :
    ∃ t, expand_target (e * 16777216 + m) = .ok t ∧
      u256_to_nat t = m * 2 ^ (8 * (e - 3)) := by
  have hE : ((e * 16777216 + m) >>> 24) % 256 = e := by
    simp only [Nat.shiftRight_eq_div_pow]
    norm_num
    omega
  have hM : (e * 16777216 + m) &&& 16777215 = m := by
    rw [show (16777215 : Nat) = 2 ^ 24 - 1 by norm_num,
      Nat.and_pow_two_sub_one_eq_mod]
    omega
  unfold expand_target
  rw [hE, hM]
  rw [if_neg (by omega), if_neg (by omega), if_neg hm0]
  by_cases he : e ≤ 3
  · have he' : e = 3 := by omega
    subst he'
    rw [if_pos (by omega)]
    refine ⟨_, rfl, ?_⟩
    simp [u256_shr, u256_from_u32, u256_set_or, u256_word, u256_zero, u256_to_nat,
      List.range_succ]
  · rw [if_neg he, if_neg (by omega)]
    refine ⟨_, rfl, ?_⟩
    have he4 : 4 ≤ e := by omega
    interval_cases e <;>
      (simp [u256_shl, u256_from_u32, u256_set_or, u256_word, u256_zero, u256_to_nat,
        List.range_succ, Nat.shiftLeft_eq, Nat.shiftRight_eq_div_pow]
       omega)

/-- C8 (amended).  `expand_target` hard-errors exactly when the
exponent byte is < 3 or > 29; and for every fixed *non-zero* mantissa
the expanded target is strictly increasing as the exponent ranges over
[3, 29].  (For mantissa 0 the target is 0 at every exponent, so strict
monotonicity fails there.) -/
theorem expand_target_rejects_and_strictly_increasing :
    (∀ bits : Nat, (∃ e, expand_target bits = .error e) ↔
      ((bits >>> 24) % 256 < 3 ∨ 29 < (bits >>> 24) % 256)) ∧
    (∀ m e1 e2 : Nat, m ≠ 0 → m < 16777216 → 3 ≤ e1 → e1 < e2 → e2 ≤ 29 →
      ∃ t1 t2, expand_target (e1 * 16777216 + m) = .ok t1 ∧
        expand_target (e2 * 16777216 + m) = .ok t2 ∧
        u256_to_nat t1 < u256_to_nat t2) := by
  refine ⟨expand_target_error_iff, ?_⟩
  intro m e1 e2 hm0 hm he1 hlt he2
  obtain ⟨t1, ht1, hv1⟩ := expand_target_value e1 m he1 (by omega) hm hm0
  obtain ⟨t2, ht2, hv2⟩ := expand_target_value e2 m (by omega) he2 hm hm0
  refine ⟨t1, t2, ht1, ht2, ?_⟩
  rw [hv1, hv2]
  exact mul_lt_mul_of_pos_left (Nat.pow_lt_pow_right (by omega) (by omega))
    (Nat.pos_of_ne_zero hm0)

/-- Counterexample to C8 as stated: with mantissa 0 and exponents 4 and
5 — both inside [3, 29] — the expanded target is zero both times, so
for this fixed mantissa the target is not strictly increasing in the
exponent. -/
theorem expand_target_mantissa_zero_counterexample :
    expand_target 0x04000000 = .ok u256_zero ∧
    expand_target 0x05000000 = .ok u256_zero ∧
    u256_to_nat u256_zero = 0 := by
  refine ⟨by decide, by decide, by decide⟩

/-- Witness for C8: exponents 3 and 29 with mantissa `0xffff` expand to
`0xffff` and `0xffff·2^208` respectively. -/
theorem expand_target_rejects_and_strictly_increasing_witness :
    (∃ e, expand_target 0x02000000 = .error e) ∧
    (∃ t1 t2, expand_target (3 * 16777216 + 65535) = .ok t1 ∧
      expand_target (29 * 16777216 + 65535) = .ok t2 ∧
      u256_to_nat t1 < u256_to_nat t2) :=
  ⟨(expand_target_rejects_and_strictly_increasing.1 0x02000000).mpr (by decide),
   expand_target_rejects_and_strictly_increasing.2 65535 3 29 (by decide) (by decide)
     (by decide) (by decide) (by decide)⟩

/-! ## Claim C5: `check_proof_of_work` -/

/-- Bytes produced by `leBytes` are below 256. -/
theorem leBytes_mem_lt : ∀ (n v b : Nat), b ∈ leBytes n v → b < 256 := by
  intro n
  induction n with
  | zero => intro v b h; simp [leBytes] at h
  | succ k ih =>
    intro v b h
    rcases List.mem_cons.mp h with rfl | hr
    · exact Nat.mod_lt v (by omega)
    · exact ih (v / 256) b hr

/-- A list of bytes below 256 reads to a value below `256^length`. -/
theorem leNat_lt : ∀ (xs : List Nat), (∀ b ∈ xs, b < 256) →
    leNat xs < 256 ^ xs.length := by
  intro xs
  induction xs with
  | nil => intro _; simp [leNat]
  | cons b rest ih =>
    intro hall
    have hb := hall b (List.mem_cons_self b rest)
    have hr := ih (fun x hx => hall x (List.mem_cons_of_mem b hx))
    simp only [leNat, List.length_cons]
    calc b + 256 * leNat rest < 256 * (leNat rest + 1) := by omega
      _ ≤ 256 * 256 ^ rest.length := Nat.mul_le_mul_left 256 (by omega)
      _ = 256 ^ (rest.length + 1) := by rw [pow_succ, Nat.mul_comm]

/-- Little-endian reading splits over append. -/
theorem leNat_append : ∀ (xs ys : List Nat),
    leNat (xs ++ ys) = leNat xs + 256 ^ xs.length * leNat ys := by
  intro xs ys
  induction xs with
  | nil => simp [leNat]
  | cons b rest ih =>
    simp only [List.cons_append, leNat, List.length_cons, List.append_eq, ih]
    ring

/-- One SHA-256 round keeps an 8-word state. -/
theorem sha256Round_length (st : List Nat) (k w : Nat) (h : st.length = 8) :
    (sha256Round st k w).length = 8 := by
  unfold sha256Round
  split
  · rfl
  · exact h

/-- The round fold keeps an 8-word state. -/
theorem sha256_fold_length : ∀ (l : List (Nat × Nat)) (st : List Nat),
    st.length = 8 →
    (l.foldl (fun s p => sha256Round s p.1 p.2) st).length = 8 := by
  intro l
  induction l with
  | nil => intro st h; exact h
  | cons p rest ih =>
    intro st h
    exact ih (sha256Round st p.1 p.2) (sha256Round_length st p.1 p.2 h)

/-- Compression keeps an 8-word state. -/
theorem sha256Compress_length (st block : List Nat) (h : st.length = 8) :
    (sha256Compress st block).length = 8 := by
  unfold sha256Compress
  rw [List.length_map, List.length_zip, h,
    sha256_fold_length _ st h]
  simp

/-- Iterated compression keeps an 8-word state. -/
theorem sha256Blocks_length : ∀ (n : Nat) (st bytes : List Nat),
    st.length = 8 → (sha256Blocks n st bytes).length = 8 := by
  intro n
  induction n with
  | zero => intro st bytes h; exact h
  | succ k ih =>
    intro st bytes h
    exact ih _ _ (sha256Compress_length st (bytes.take 64) h)

/-- SHA-256 output is 32 bytes long. -/
theorem sha256_length (msg : List Nat) : (sha256 msg).length = 32 := by
  have hfold : ∀ (l : List Nat),
      (l.foldr (fun wd acc => (leBytes 4 wd).reverse ++ acc) []).length = 4 * l.length := by
    intro l
    induction l with
    | nil => rfl
    | cons w rest ih =>
      simp only [List.foldr_cons, List.length_append, List.length_reverse, ih]
      have h4 : (leBytes 4 w).length = 4 := rfl
      simp only [h4, List.length_cons]
      omega
  simp only [sha256]
  rw [hfold, sha256Blocks_length _ _ _ (by rfl)]

/-- SHA-256 output bytes are below 256. -/
theorem sha256_mem_lt (msg : List Nat) : ∀ b ∈ sha256 msg, b < 256 := by
  simp only [sha256]
  generalize sha256Blocks ((sha256Pad msg).length / 64) sha256H0 (sha256Pad msg) = st
  induction st with
  | nil => intro b h; simp at h
  | cons w rest ih =>
    intro b h
    simp only [List.foldr_cons] at h
    rcases List.mem_append.mp h with hl | hr
    · exact leBytes_mem_lt 4 w b (List.mem_reverse.mp hl)
    · exact ih b hr

/-- `U256::from_bytes` reads a 32-byte buffer as the little-endian
value of the whole buffer. -/
theorem u256_from_bytes_to_nat (bytes : List Nat) (hlen : bytes.length = 32) :
    u256_to_nat (u256_from_bytes bytes) = leNat bytes := by
  have hsplit : bytes =
      bytes.take 8 ++ ((bytes.drop 8).take 8 ++ ((bytes.drop 16).take 8 ++ (bytes.drop 24).take 8)) := by
    have h1 : bytes.take 8 ++ bytes.drop 8 = bytes := List.take_append_drop 8 bytes
    have h2 : (bytes.drop 8).take 8 ++ (bytes.drop 8).drop 8 = bytes.drop 8 :=
      List.take_append_drop 8 (bytes.drop 8)
    have h3 : (bytes.drop 16).take 8 ++ (bytes.drop 16).drop 8 = bytes.drop 16 :=
      List.take_append_drop 8 (bytes.drop 16)
    have h4 : (bytes.drop 24).take 8 = bytes.drop 24 := by
      apply List.take_of_length_le
      simp [hlen]
    rw [List.drop_drop] at h2 h3
    norm_num at h2 h3
    rw [h4, h3, h2, h1]
  have hl0 : (bytes.take 8).length = 8 := by simp [hlen]
  have hl1 : ((bytes.drop 8).take 8).length = 8 := by simp [hlen]
  have hl2 : ((bytes.drop 16).take 8).length = 8 := by simp [hlen]
  conv_rhs => rw [hsplit]
  rw [leNat_append, leNat_append, leNat_append, hl0, hl1, hl2]
  simp only [u256_from_bytes, List.range_succ, List.range_zero, List.map_cons,
    List.map_nil, List.nil_append, List.cons_append]
  simp only [u256_to_nat, List.getD_cons_zero, List.getD_cons_succ]
  norm_num
  ring

/-- The words `U256::from_bytes` produces from a 32-byte buffer of
bytes are below `2^64`. -/
theorem u256_from_bytes_wf (bytes : List Nat) (hlen : bytes.length = 32)
    (hb : ∀ b ∈ bytes, b < 256) :
    (u256_from_bytes bytes).length = 4 ∧ ∀ w ∈ u256_from_bytes bytes, w < 2 ^ 64 := by
  constructor
  · simp [u256_from_bytes]
  · intro w hw
    simp only [u256_from_bytes, List.mem_map] at hw
    obtain ⟨i, _, rfl⟩ := hw
    have hchunk : ∀ b ∈ (bytes.drop (8 * i)).take 8, b < 256 := by
      intro b hbm
      exact hb b (List.mem_of_mem_drop (List.mem_of_mem_take hbm))
    have hlt := leNat_lt _ hchunk
    have hlen8 : ((bytes.drop (8 * i)).take 8).length ≤ 8 := by
      simp
    calc leNat ((bytes.drop (8 * i)).take 8) < 256 ^ ((bytes.drop (8 * i)).take 8).length := hlt
      _ ≤ 256 ^ 8 := Nat.pow_le_pow_right (by omega) hlen8
      _ = 2 ^ 64 := by norm_num

/-- A `U256` word (via `getD`) of a well-formed word array is below
`2^64`. -/
theorem u256_word_lt (x : List Nat) (hx : ∀ w ∈ x, w < 2 ^ 64) (i : Nat) :
    u256_word x i < 2 ^ 64 := by
  unfold u256_word
  by_cases hi : i < x.length
  · rw [List.getD_eq_getElem x 0 hi]
    exact hx _ (List.getElem_mem hi)
  · rw [List.getD_eq_default x 0 (by omega)]
    positivity

/-- `|=` into a well-formed word array with a bounded value keeps it
well-formed. -/
theorem u256_set_or_wf (r : List Nat) (i v : Nat)
    (hr : r.length = 4 ∧ ∀ w ∈ r, w < 2 ^ 64) (hv : v < 2 ^ 64) :
    (u256_set_or r i v).length = 4 ∧ ∀ w ∈ u256_set_or r i v, w < 2 ^ 64 := by
  constructor
  · simp [u256_set_or, hr.1]
  · intro w hw
    rcases List.mem_or_eq_of_mem_set hw with hmem | rfl
    · exact hr.2 w hmem
    · exact Nat.or_lt_two_pow (u256_word_lt r hr.2 i) hv

/-- `U256::shl` yields a well-formed word array from a well-formed
input. -/
theorem u256_shl_wf (x : List Nat) (s : Nat) (hx : ∀ w ∈ x, w < 2 ^ 64) :
    (u256_shl x s).length = 4 ∧ ∀ w ∈ u256_shl x s, w < 2 ^ 64 := by
  unfold u256_shl
  split
  · exact ⟨rfl, by decide⟩
  · have hinv : ∀ (l : List Nat) (r : List Nat),
        (r.length = 4 ∧ ∀ w ∈ r, w < 2 ^ 64) →
        ((l.foldl (fun r i =>
          if i + s / 64 < 4 then
            let r1 := u256_set_or r (i + s / 64)
              ((u256_word x i <<< (s % 64)) % 18446744073709551616)
            if 0 < s % 64 ∧ i + s / 64 + 1 < 4 then
              u256_set_or r1 (i + s / 64 + 1) (u256_word x i >>> (64 - s % 64))
            else r1
          else r) r).length = 4 ∧
          ∀ w ∈ l.foldl (fun r i =>
            if i + s / 64 < 4 then
              let r1 := u256_set_or r (i + s / 64)
                ((u256_word x i <<< (s % 64)) % 18446744073709551616)
              if 0 < s % 64 ∧ i + s / 64 + 1 < 4 then
                u256_set_or r1 (i + s / 64 + 1) (u256_word x i >>> (64 - s % 64))
              else r1
            else r) r, w < 2 ^ 64) := by
      intro l
      induction l with
      | nil => intro r hr; exact hr
      | cons j rest ih =>
        intro r hr
        apply ih
        by_cases hj : j + s / 64 < 4
        · simp only [if_pos hj]
          have hmod : (u256_word x j <<< (s % 64)) % 18446744073709551616 < 2 ^ 64 := by
            have := Nat.mod_lt (u256_word x j <<< (s % 64))
              (show 0 < 18446744073709551616 by omega)
            omega
          have hshr : u256_word x j >>> (64 - s % 64) < 2 ^ 64 := by
            calc u256_word x j >>> (64 - s % 64) ≤ u256_word x j := by
                  rw [Nat.shiftRight_eq_div_pow]
                  exact Nat.div_le_self _ _
              _ < 2 ^ 64 := u256_word_lt x hx j
          have h1 := u256_set_or_wf r (j + s / 64)
            ((u256_word x j <<< (s % 64)) % 18446744073709551616) hr hmod
          by_cases hc : 0 < s % 64 ∧ j + s / 64 + 1 < 4
          · simp only [if_pos hc]
            exact u256_set_or_wf _ (j + s / 64 + 1)
              (u256_word x j >>> (64 - s % 64)) h1 hshr
          · simp only [if_neg hc]
            exact h1
        · simp only [if_neg hj]
          exact hr
    exact hinv (List.range 4) u256_zero ⟨rfl, by decide⟩

/-- `U256::shr` yields a well-formed word array from a well-formed
input. -/
theorem u256_shr_wf (x : List Nat) (s : Nat) (hx : ∀ w ∈ x, w < 2 ^ 64) :
    (u256_shr x s).length = 4 ∧ ∀ w ∈ u256_shr x s, w < 2 ^ 64 := by
  unfold u256_shr
  split
  · exact ⟨rfl, by decide⟩
  · have hinv : ∀ (l : List Nat) (r : List Nat),
        (r.length = 4 ∧ ∀ w ∈ r, w < 2 ^ 64) →
        ((l.foldl (fun r i =>
          if s / 64 ≤ i then
            let r1 := u256_set_or r (i - s / 64) (u256_word x i >>> (s % 64))
            if 0 < s % 64 ∧ i - s / 64 + 1 < 4 then
              u256_set_or r1 (i - s / 64 + 1)
                ((u256_word x i <<< (64 - s % 64)) % 18446744073709551616)
            else r1
          else r) r).length = 4 ∧
          ∀ w ∈ l.foldl (fun r i =>
            if s / 64 ≤ i then
              let r1 := u256_set_or r (i - s / 64) (u256_word x i >>> (s % 64))
              if 0 < s % 64 ∧ i - s / 64 + 1 < 4 then
                u256_set_or r1 (i - s / 64 + 1)
                  ((u256_word x i <<< (64 - s % 64)) % 18446744073709551616)
              else r1
            else r) r, w < 2 ^ 64) := by
      intro l
      induction l with
      | nil => intro r hr; exact hr
      | cons j rest ih =>
        intro r hr
        apply ih
        by_cases hj : s / 64 ≤ j
        · simp only [if_pos hj]
          have hshr : u256_word x j >>> (s % 64) < 2 ^ 64 := by
            calc u256_word x j >>> (s % 64) ≤ u256_word x j := by
                  rw [Nat.shiftRight_eq_div_pow]
                  exact Nat.div_le_self _ _
              _ < 2 ^ 64 := u256_word_lt x hx j
          have hmod : (u256_word x j <<< (64 - s % 64)) % 18446744073709551616 < 2 ^ 64 := by
            have := Nat.mod_lt (u256_word x j <<< (64 - s % 64))
              (show 0 < 18446744073709551616 by omega)
            omega
          have h1 := u256_set_or_wf r (j - s / 64) (u256_word x j >>> (s % 64)) hr hshr
          by_cases hc : 0 < s % 64 ∧ j - s / 64 + 1 < 4
          · simp only [if_pos hc]
            exact u256_set_or_wf _ (j - s / 64 + 1)
              ((u256_word x j <<< (64 - s % 64)) % 18446744073709551616) h1 hmod
          · simp only [if_neg hc]
            exact h1
        · simp only [if_neg hj]
          exact hr
    exact hinv (List.range 4) u256_zero ⟨rfl, by decide⟩

/-- Targets produced by `expand_target` are well-formed word arrays. -/
theorem expand_target_wf (bits : Nat) (t : List Nat)
    (h : expand_target bits = .ok t) :
    t.length = 4 ∧ ∀ w ∈ t, w < 2 ^ 64 := by
  have hmlt : bits &&& 16777215 < 2 ^ 64 := by
    have := Nat.and_pow_two_sub_one_eq_mod bits 24
    rw [show (16777215 : Nat) = 2 ^ 24 - 1 by norm_num, this]
    have := Nat.mod_lt bits (show 0 < 2 ^ 24 by norm_num)
    omega
  have hfromu32 : ∀ w ∈ u256_from_u32 (bits &&& 16777215), w < 2 ^ 64 := by
    intro w hw
    simp only [u256_from_u32, List.mem_cons, List.mem_singleton] at hw
    rcases hw with rfl | rfl | rfl | rfl | h'
    · exact hmlt
    all_goals first | positivity | simp at h'
  simp only [expand_target] at h
  split at h
  · exact Except.noConfusion h
  · split at h
    · exact Except.noConfusion h
    · split at h
      · rw [← Except.ok.inj h]
        exact ⟨rfl, by decide⟩
      · split at h
        · rw [← Except.ok.inj h]
          exact u256_shr_wf _ _ hfromu32
        · split at h
          · exact Except.noConfusion h
          · rw [← Except.ok.inj h]
            exact u256_shl_wf _ _ hfromu32

theorem u256_cmp_lt_iff (a0 a1 a2 a3 b0 b1 b2 b3 : Nat)
    (ha0 : a0 < 2 ^ 64) (ha1 : a1 < 2 ^ 64) (ha2 : a2 < 2 ^ 64)
    (hb0 : b0 < 2 ^ 64) (hb1 : b1 < 2 ^ 64) (hb2 : b2 < 2 ^ 64) :
    (u256_cmp [a0, a1, a2, a3] [b0, b1, b2, b3] = Ordering.lt) ↔
      u256_to_nat [a0, a1, a2, a3] < u256_to_nat [b0, b1, b2, b3] := by
  have hc : u256_cmp [a0, a1, a2, a3] [b0, b1, b2, b3] =
      cmp_word_pairs [(a3, b3), (a2, b2), (a1, b1), (a0, b0)] := rfl
  rw [hc]
  simp only [u256_to_nat, List.getD_cons_zero, List.getD_cons_succ]
  rcases Nat.lt_trichotomy a3 b3 with h3 | rfl | h3
  · simp only [cmp_word_pairs, Nat.compare_eq_lt.mpr h3]
    exact iff_of_true trivial (by omega)
  · simp only [cmp_word_pairs, Nat.compare_eq_eq.mpr rfl]
    rcases Nat.lt_trichotomy a2 b2 with h2 | rfl | h2
    · simp only [cmp_word_pairs, Nat.compare_eq_lt.mpr h2]
      exact iff_of_true trivial (by omega)
    · simp only [cmp_word_pairs, Nat.compare_eq_eq.mpr rfl]
      rcases Nat.lt_trichotomy a1 b1 with h1 | rfl | h1
      · simp only [cmp_word_pairs, Nat.compare_eq_lt.mpr h1]
        exact iff_of_true trivial (by omega)
      · simp only [cmp_word_pairs, Nat.compare_eq_eq.mpr rfl]
        rcases Nat.lt_trichotomy a0 b0 with h0 | rfl | h0
        · simp only [cmp_word_pairs, Nat.compare_eq_lt.mpr h0]
          exact iff_of_true trivial (by omega)
        · simp only [cmp_word_pairs, Nat.compare_eq_eq.mpr rfl]
          exact iff_of_false (by decide) (by omega)
        · simp only [cmp_word_pairs, Nat.compare_eq_gt.mpr h0]
          exact iff_of_false (by decide) (by omega)
      · simp only [cmp_word_pairs, Nat.compare_eq_gt.mpr h1]
        exact iff_of_false (by decide) (by omega)
    · simp only [cmp_word_pairs, Nat.compare_eq_gt.mpr h2]
      exact iff_of_false (by decide) (by omega)
  · simp only [cmp_word_pairs, Nat.compare_eq_gt.mpr h3]
    exact iff_of_false (by decide) (by omega)

/-- A list of length 4 is a four-element list. -/
theorem list_length_four (l : List Nat) (h : l.length = 4) :
    ∃ x0 x1 x2 x3, l = [x0, x1, x2, x3] := by
  rcases l with _ | ⟨x0, _ | ⟨x1, _ | ⟨x2, _ | ⟨x3, rest⟩⟩⟩⟩
  · simp at h
  · simp at h
  · simp at h
  · simp at h
  · rcases rest with _ | ⟨x4, t⟩
    · exact ⟨x0, x1, x2, x3, rfl⟩
    · simp only [List.length_cons] at h
      omega

/-- On well-formed word arrays, the source's `U256` order decides the
numeric order. -/
theorem u256_lt_eq_decide (a b : List Nat)
    (ha : a.length = 4 ∧ ∀ w ∈ a, w < 2 ^ 64)
    (hb : b.length = 4 ∧ ∀ w ∈ b, w < 2 ^ 64) :
    u256_lt a b = decide (u256_to_nat a < u256_to_nat b) := by
  obtain ⟨a0, a1, a2, a3, rfl⟩ := list_length_four a ha.1
  obtain ⟨b0, b1, b2, b3, rfl⟩ := list_length_four b hb.1
  have hiff := u256_cmp_lt_iff a0 a1 a2 a3 b0 b1 b2 b3
    (ha.2 a0 (by simp)) (ha.2 a1 (by simp)) (ha.2 a2 (by simp))
    (hb.2 b0 (by simp)) (hb.2 b1 (by simp)) (hb.2 b2 (by simp))
  by_cases hP : u256_to_nat [a0, a1, a2, a3] < u256_to_nat [b0, b1, b2, b3]
  · rw [decide_eq_true hP]
    simp only [u256_lt, hiff.mpr hP]
    rfl
  · rw [decide_eq_false hP]
    have hne : u256_cmp [a0, a1, a2, a3] [b0, b1, b2, b3] ≠ Ordering.lt :=
      fun hc => hP (hiff.mp hc)
    show (u256_cmp [a0, a1, a2, a3] [b0, b1, b2, b3] == Ordering.lt) = false
    cases hc : u256_cmp [a0, a1, a2, a3] [b0, b1, b2, b3] with
    | lt => exact absurd hc hne
    | eq => rfl
    | gt => rfl

/-- C5 (amended).  When the bits expand, `check_proof_of_work` returns
exactly the comparison of the double-SHA256 of the 80-byte header
serialization, read as a *little-endian* 256-bit unsigned integer,
strictly below the expanded target; when expansion fails it propagates
the hard error. -/
theorem check_proof_of_work_little_endian :
    (∀ (header : BlockHeader) (t : List Nat),
      expand_target header.bits = .ok t →
      check_proof_of_work header =
        .ok (decide (leNat (sha256 (sha256 (serialize_header header))) < u256_to_nat t))) ∧
    (∀ (header : BlockHeader) (e : ConsensusError),
      expand_target header.bits = .error e →
      check_proof_of_work header = .error e) := by
  constructor
  · intro header t ht
    simp only [check_proof_of_work, ht]
    have hwf := u256_from_bytes_wf (sha256 (sha256 (serialize_header header)))
      (sha256_length _) (sha256_mem_lt _)
    have htn := u256_from_bytes_to_nat (sha256 (sha256 (serialize_header header)))
      (sha256_length _)
    rw [u256_lt_eq_decide _ _ hwf (expand_target_wf header.bits t ht), htn]
  · intro header e he
    simp only [check_proof_of_work, he]

/-- Witness for C5: a header with bits `0x1d00ffff` — the comparison
the theorem yields for the concretely expanded target. -/
theorem check_proof_of_work_little_endian_witness :
    check_proof_of_work ⟨1, List.replicate 32 0, List.replicate 32 0, 0, 0x1d00ffff, 0⟩ =
      .ok (decide (leNat (sha256 (sha256 (serialize_header
        ⟨1, List.replicate 32 0, List.replicate 32 0, 0, 0x1d00ffff, 0⟩))) <
        u256_to_nat [0, 0, 0, 4294901760])) :=
  check_proof_of_work_little_endian.1
    ⟨1, List.replicate 32 0, List.replicate 32 0, 0, 0x1d00ffff, 0⟩
    [0, 0, 0, 4294901760] (by decide)

set_option maxRecDepth 1000000 in
/-- Counterexample to C5 as stated: a concrete header whose double
SHA-256, read as the claim's *big-endian* integer, is not below the
target, while `check_proof_of_work` nevertheless returns true — the
code reads the hash little-endian. -/
theorem check_proof_of_work_not_big_endian :
    check_proof_of_work
        ⟨1, List.replicate 32 0, List.replicate 32 0, 0, 0x1dffffff, 4310402⟩ = .ok true ∧
    expand_target 0x1dffffff = .ok [0, 0, 0, 1099511562240] ∧
    ¬(beNat (sha256d (serialize_header
        ⟨1, List.replicate 32 0, List.replicate 32 0, 0, 0x1dffffff, 4310402⟩)) <
      u256_to_nat [0, 0, 0, 1099511562240]) := by
  refine ⟨by decide, by decide, by decide⟩

end ConsensusProof
